import Mathlib

/-!
Shallow embedding of the Collage Step A pipeline (Src/main.py): a script that
lists at least six image files from a directory, decodes them with EXIF
auto-rotation into RGBA, assigns five element roles and one background role,
renders a contact sheet, writes size-capped normalized copies, and serializes
a JSON manifest. Python and PIL behaviour is modelled with explicit data:
an image is its dimensions, mode and EXIF orientation tag; a directory is a
list of named file entries; PIL thumbnail geometry is modelled with exact
rational arithmetic; json.dumps with indent 2 is modelled as a string
serializer.
-/

namespace Collage

/-- Model of a PIL image as far as the script observes it: pixel dimensions,
pixel mode, and the EXIF orientation tag (0 when the tag is absent). -/
structure PILImage where
  width : Nat
  height : Nat
  mode : String
  orientation : Nat
  deriving DecidableEq, Repr

/-- Model of one directory entry: its file name and the image that
PIL Image.open would decode from its bytes. -/
structure FileEntry where
  name : String
  image : PILImage
  deriving DecidableEq, Repr

/-- Mirror of the PhotoAsset dataclass in Src/main.py. The trailing field
models the private in-memory image attribute. -/
structure PhotoAsset where
  id : Nat
  role : String
  path : String
  width : Nat
  height : Nat
  _image : PILImage
  deriving DecidableEq, Repr

/-- Model of PIL ImageOps.exif_transpose: orientations 5 to 8 transpose the
axes (dimensions swap), orientations 2 to 4 flip or rotate by 180 degrees
(dimensions keep), and in both cases the orientation tag is removed; any
other tag value leaves the image untouched. -/
def exif_transpose (img : PILImage) : PILImage :=
  if 5 ≤ img.orientation ∧ img.orientation ≤ 8 then
    { img with width := img.height, height := img.width, orientation := 0 }
  else if 2 ≤ img.orientation ∧ img.orientation ≤ 4 then
    { img with orientation := 0 }
  else img

/-- Model of PIL Image.convert: only the pixel mode changes. -/
def convert (img : PILImage) (mode : String) : PILImage :=
  { img with mode := mode }

/-- Mirror of load_rgba_with_exif in Src/main.py: open an image, apply EXIF
orientation, return RGBA. -/
def load_rgba_with_exif (f : FileEntry) : PILImage :=
  convert (exif_transpose f.image) ("RGBA")

/-- Code-point comparison of character lists, as Python compares strings. -/
def charsLe : List Char → List Char → Bool
  | [], _ => true
  | _ :: _, [] => false
  | a :: as, b :: bs =>
    if a.toNat < b.toNat then true
    else if b.toNat < a.toNat then false
    else charsLe as bs

/-- Python string less-or-equal: lexicographic on code points. -/
def pyStrLe (a b : String) : Bool :=
  charsLe a.data b.data

/-- Model of Python str.lower restricted to the ASCII range, which is all the
extension comparison in Src/main.py can distinguish. -/
def strLower (s : String) : String :=
  String.mk (s.data.map Char.toLower)

/-- Index of the last dot of a character list, if any (Python str.rfind). -/
def lastDotIdx (cs : List Char) : Option Nat :=
  match cs.reverse.findIdx? (fun c => c == '.') with
  | none => none
  | some j => some (cs.length - 1 - j)

/-- Model of pathlib PurePath.suffix: the final extension including its dot,
empty when the name has no dot, starts with its only dot, or ends in a dot. -/
def pathSuffix (s : String) : String :=
  let cs := s.data
  match lastDotIdx cs with
  | none => ""
  | some i => if 0 < i ∧ i < cs.length - 1 then String.mk (cs.drop i) else ""

/-- The extension set recognized by list_images in Src/main.py. -/
def imageExts : List String :=
  [".jpg", ".jpeg", ".png", ".webp", ".tif", ".tiff"]

/-- The filter used by list_images: the lower-cased suffix is a known image
extension. -/
def isImageEntry (p : FileEntry) : Bool :=
  imageExts.contains (strLower (pathSuffix p.name))

/-- Name order on directory entries, as Python sorted compares Path values of
a common parent directory. -/
def nameLe (a b : FileEntry) : Prop :=
  pyStrLe a.name b.name = true

instance : DecidableRel nameLe := fun a b => instDecidableEqBool (pyStrLe a.name b.name) true

/-- Python sorted on directory entries: a stable sort by name. -/
def sortByName (l : List FileEntry) : List FileEntry :=
  List.insertionSort nameLe l

/-- Mirror of list_images in Src/main.py: return image paths sorted by name;
expects at least 6, raising ValueError otherwise, and keeps the first 6. -/
def list_images (input_dir : List FileEntry) : Except String (List FileEntry) :=
  let files := sortByName (input_dir.filter isImageEntry)
  if files.length < 6 then
    Except.error ("Need at least 6 images, found " ++ toString files.length ++ ".")
  else
    Except.ok (files.take 6)

/-- Loop body of make_assets: the running index of the Python enumerate with
start 1 is threaded explicitly. -/
def make_assets_aux (i : Nat) : List FileEntry → List PhotoAsset
  | [] => []
  | p :: rest =>
    { id := i,
      role := if i < 6 then "element" else "background",
      path := p.name,
      width := (load_rgba_with_exif p).width,
      height := (load_rgba_with_exif p).height,
      _image := load_rgba_with_exif p } :: make_assets_aux (i + 1) rest

/-- Mirror of make_assets in Src/main.py: create PhotoAsset objects from
paths; ids 1 to 5 get the element role, id 6 the background role. -/
def make_assets (paths : List FileEntry) : List PhotoAsset :=
  make_assets_aux 1 paths

/-- Python min over two candidates with a key function: the first argument
wins ties (PIL round_aspect compares floor before ceil). -/
def pyMin2 (key : Nat → ℚ) (a b : Nat) : Nat :=
  if key b < key a then b else a

/-- PIL round_aspect inside Image.thumbnail: the floor or the ceiling of the
exact value, whichever the key prefers, but at least 1. -/
def roundAspect (key : Nat → ℚ) (q : ℚ) : Nat :=
  max (pyMin2 key (Int.toNat ⌊q⌋) (Int.toNat ⌈q⌉)) 1

/-- Dimension behaviour of PIL Image.thumbnail with target size tx by ty:
no change when the image already fits, otherwise the side that the aspect
ratio leaves free is rounded from the exact rational value. Rational
arithmetic stands in for the float arithmetic of PIL. -/
def thumbnailDims (w h tx ty : Nat) : Nat × Nat :=
  if w ≤ tx ∧ h ≤ ty then (w, h)
  else
    let aspect : ℚ := (w : ℚ) / (h : ℚ)
    if aspect ≤ (tx : ℚ) / (ty : ℚ) then
      (roundAspect (fun n => |aspect - (n : ℚ) / (ty : ℚ)|) ((ty : ℚ) * aspect), ty)
    else
      (tx, roundAspect (fun n => if n = 0 then 0 else |aspect - (tx : ℚ) / (n : ℚ)|) ((tx : ℚ) / aspect))

/-- Everything save_contact_sheet draws for one asset: the thumbnail size and
paste position, the label text with its semi-transparent backing box, and the
text anchor. Box right and bottom edges follow the Python expression
x + tw + 8 and y + th + 6 with th fixed to 12; tw is the font-dependent
text length, kept exact as a rational. -/
structure TileRender where
  thumbW : Nat
  thumbH : Nat
  posX : Int
  posY : Int
  labelText : String
  boxX0 : Int
  boxY0 : Int
  boxX1 : ℚ
  boxY1 : Int
  boxFill : Nat × Nat × Nat × Nat
  textX : Int
  textY : Int

/-- The contact sheet canvas and the rendered tiles. -/
structure ContactSheet where
  sheetW : Nat
  sheetH : Nat
  bg : Nat × Nat × Nat × Nat
  tiles : List TileRender

/-- Body of the rendering loop of save_contact_sheet for the asset at
position idx. -/
def render_tile (tileW tileH cols : Nat) (textW : String → ℚ) (idx : Nat)
    (a : PhotoAsset) : TileRender :=
  let tdims := thumbnailDims a._image.width a._image.height tileW tileH
  let x : Int := (idx % cols) * tileW + Int.fdiv ((tileW : Int) - tdims.1) 2
  let y : Int := (idx / cols) * tileH + Int.fdiv ((tileH : Int) - tdims.2) 2
  let label := toString a.id ++ ": " ++ a.role
  { thumbW := tdims.1, thumbH := tdims.2, posX := x, posY := y,
    labelText := label,
    boxX0 := x, boxY0 := y, boxX1 := (x : ℚ) + textW label + 8, boxY1 := y + 12 + 6,
    boxFill := (0, 0, 0, 120),
    textX := x + 4, textY := y + 2 }

/-- The enumerate loop of save_contact_sheet with its explicit index. -/
def render_tiles_aux (tileW tileH cols : Nat) (textW : String → ℚ) (idx : Nat) :
    List PhotoAsset → List TileRender
  | [] => []
  | a :: rest =>
    render_tile tileW tileH cols textW idx a ::
      render_tiles_aux tileW tileH cols textW (idx + 1) rest

/-- Mirror of save_contact_sheet in Src/main.py: a cols-wide grid of tiles on
a light grey canvas, one rendered tile per asset. The font metric textW
models draw.textlength. -/
def save_contact_sheet (assets : List PhotoAsset) (tileW tileH cols : Nat)
    (textW : String → ℚ) : ContactSheet :=
  let rows := (assets.length + cols - 1) / cols
  { sheetW := cols * tileW, sheetH := rows * tileH,
    bg := (245, 245, 245, 255),
    tiles := render_tiles_aux tileW tileH cols textW 0 assets }

/-- Output dimensions of the normalized copy of one asset, per the loop body
of save_normalized_images: shrink with Image.thumbnail only when the larger
side exceeds the role-dependent target. -/
def normalizedDims (mse msb : Nat) (a : PhotoAsset) : Nat × Nat :=
  let target := if a.role == "background" then msb else mse
  if target < max a._image.width a._image.height then
    thumbnailDims a._image.width a._image.height target target
  else
    (a._image.width, a._image.height)

/-- Python format of an id with {:02d}: zero-padded to at least two digits. -/
def pad2 (n : Nat) : String :=
  if n < 10 then "0" ++ toString n else toString n

/-- Output file name of the normalized copy of one asset. -/
def normName (a : PhotoAsset) : String :=
  pad2 a.id ++ "_" ++ a.role ++ ".png"

/-- Mirror of save_normalized_images in Src/main.py: for every asset, the
written PNG name and the dimensions of the written copy. -/
def save_normalized_images (assets : List PhotoAsset) (mse msb : Nat) :
    List (String × Nat × Nat) :=
  assets.map (fun a => (normName a, normalizedDims mse msb a))

/-- A JSON scalar as write_summary produces them: a Python int or str. -/
inductive JScalar where
  | jint : Nat → JScalar
  | jstr : String → JScalar
  deriving DecidableEq, Repr

/-- Lower-case hexadecimal digit. -/
def hexDigit (n : Nat) : Char :=
  if n < 10 then Char.ofNat (48 + n) else Char.ofNat (87 + n)

/-- Four hexadecimal digits, as in a JSON unicode escape. -/
def hex4 (n : Nat) : String :=
  String.mk [hexDigit (n / 4096 % 16), hexDigit (n / 256 % 16),
    hexDigit (n / 16 % 16), hexDigit (n % 16)]

/-- Escaping of one character by json.dumps with the default ensure_ascii:
backslash, quote and the short control escapes, unicode escapes outside the
printable ASCII range, everything else verbatim. -/
def jsonEscapeChar (c : Char) : String :=
  if c = '\\' then "\\\\"
  else if c = '\"' then "\\\""
  else if c = '\n' then "\\n"
  else if c = '\r' then "\\r"
  else if c = '\t' then "\\t"
  else if c.toNat = 8 then "\\b"
  else if c.toNat = 12 then "\\f"
  else if c.toNat < 32 ∨ 126 < c.toNat then
    if c.toNat < 65536 then "\\u" ++ hex4 c.toNat
    else
      "\\u" ++ hex4 (55296 + (c.toNat - 65536) / 1024) ++
        "\\u" ++ hex4 (56320 + (c.toNat - 65536) % 1024)
  else String.mk [c]

/-- A JSON string literal as json.dumps writes it. -/
def pyJsonStr (s : String) : String :=
  "\"" ++ String.join (s.data.map jsonEscapeChar) ++ "\""

/-- Serialization of one scalar. -/
def dumpScalar : JScalar → String
  | .jint n => toString n
  | .jstr s => pyJsonStr s

/-- Serialization of one flat JSON object by json.dumps with indent 2, where
ind is the indentation of the object itself: keys one level deeper, closing
brace at the own level, key separator colon space. -/
def dumpRecord (ind : String) (r : List (String × JScalar)) : String :=
  if r.isEmpty then "\x7b\x7d"
  else
    "\x7b\n" ++
      String.intercalate (",\n")
        (r.map (fun kv => ind ++ "  " ++ pyJsonStr kv.1 ++ ": " ++ dumpScalar kv.2)) ++
      "\n" ++ ind ++ "\x7d"

/-- Serialization of a top-level list of flat objects by json.dumps with
indent 2. -/
def dumpRecordList (rs : List (List (String × JScalar))) : String :=
  if rs.isEmpty then "[]"
  else
    "[\n" ++
      String.intercalate (",\n") (rs.map (fun r => "  " ++ dumpRecord ("  ") r)) ++
      "\n]"

/-- The dict built for one asset in the list comprehension of write_summary. -/
def summary_record (a : PhotoAsset) : List (String × JScalar) :=
  [("id", .jint a.id), ("role", .jstr a.role), ("path", .jstr a.path),
    ("width", .jint a.width), ("height", .jint a.height)]

/-- Mirror of write_summary in Src/main.py: the JSON text written to the
summary file. -/
def write_summary (assets : List PhotoAsset) : String :=
  dumpRecordList (assets.map summary_record)

/-- Mirror of main in Src/main.py after argument parsing: the one validation
step followed by the three artifacts. File system side effects are elided;
the value of each written artifact is returned. -/
def run_pipeline (input_dir : List FileEntry) (textW : String → ℚ) :
    Except String (ContactSheet × List (String × Nat × Nat) × String) :=
  match list_images input_dir with
  | Except.error e => Except.error e
  | Except.ok paths =>
    let assets := make_assets paths
    Except.ok
      (save_contact_sheet assets 480 320 3 textW,
        save_normalized_images assets 1600 2400,
        write_summary assets)

/-- Sample decoded image for concrete runs: landscape, no pending rotation. -/
def demoImg : PILImage :=
  { width := 4, height := 3, mode := "RGB", orientation := 1 }

/-- Sample directory entry around demoImg. -/
def demoFile (s : String) : FileEntry :=
  { name := s, image := demoImg }

/-- Sample directory with seven entries, one of which is not an image. -/
def demoDir : List FileEntry :=
  [demoFile ("f.tiff"), demoFile ("a.jpg"), demoFile ("c.jpeg"), demoFile ("g.txt"),
    demoFile ("b.PNG"), demoFile ("d.webp"), demoFile ("e.tif")]

/-- The six entries of demoDir that list_images selects, in name order. -/
def demoSel : List FileEntry :=
  [demoFile ("a.jpg"), demoFile ("b.PNG"), demoFile ("c.jpeg"),
    demoFile ("d.webp"), demoFile ("e.tif"), demoFile ("f.tiff")]

/-- Entry whose image carries EXIF orientation 6, a rotated portrait. -/
def rotFile : FileEntry :=
  { name := "rot.jpg", image := { width := 400, height := 300, mode := "RGB", orientation := 6 } }

/-- Entry whose image is wider than the element threshold. -/
def bigFile : FileEntry :=
  { name := "big.png", image := { width := 3200, height := 1600, mode := "P", orientation := 0 } }

/-- The element asset that make_assets builds from bigFile alone. -/
def bigAsset : PhotoAsset :=
  { id := 1, role := "element", path := "big.png", width := 3200, height := 1600,
    _image := { width := 3200, height := 1600, mode := "RGBA", orientation := 0 } }

/-!
Order lemmas for the Python string comparison.
-/

theorem charsLe_total : ∀ as bs, charsLe as bs = true ∨ charsLe bs as = true := by
  intro as
  induction as with
  | nil => intro bs; left; rfl
  | cons a as ih =>
    intro bs
    cases bs with
    | nil => right; rfl
    | cons b bs =>
      simp only [charsLe]
      rcases Nat.lt_trichotomy a.toNat b.toNat with h | h | h
      · left; simp [h]
      · have h2 : ¬ a.toNat < b.toNat := by omega
        have h3 : ¬ b.toNat < a.toNat := by omega
        simpa [h2, h3] using ih bs
      · right; simp [h]

theorem charsLe_trans : ∀ as bs cs, charsLe as bs = true → charsLe bs cs = true →
    charsLe as cs = true := by
  intro as
  induction as with
  | nil => intro bs cs _ _; rfl
  | cons a as ih =>
    intro bs cs h1 h2
    cases bs with
    | nil => simp [charsLe] at h1
    | cons b bs =>
      cases cs with
      | nil => simp [charsLe] at h2
      | cons c cs =>
        simp only [charsLe] at h1 h2 ⊢
        by_cases hab : a.toNat < b.toNat
        · by_cases hbc : b.toNat < c.toNat
          · simp [(by omega : a.toNat < c.toNat)]
          · by_cases hcb : c.toNat < b.toNat
            · simp [hbc, hcb] at h2
            · simp [(by omega : a.toNat < c.toNat)]
        · by_cases hba : b.toNat < a.toNat
          · simp [hab, hba] at h1
          · by_cases hbc : b.toNat < c.toNat
            · simp [(by omega : a.toNat < c.toNat)]
            · by_cases hcb : c.toNat < b.toNat
              · simp [hbc, hcb] at h2
              · rw [if_neg hab, if_neg hba] at h1
                rw [if_neg hbc, if_neg hcb] at h2
                rw [if_neg (by omega : ¬ a.toNat < c.toNat),
                  if_neg (by omega : ¬ c.toNat < a.toNat)]
                exact ih bs cs h1 h2

theorem charsLe_antisymm : ∀ as bs, charsLe as bs = true → charsLe bs as = true →
    as = bs := by
  intro as
  induction as with
  | nil =>
    intro bs _ h2
    cases bs with
    | nil => rfl
    | cons b bs => simp [charsLe] at h2
  | cons a as ih =>
    intro bs h1 h2
    cases bs with
    | nil => simp [charsLe] at h1
    | cons b bs =>
      simp only [charsLe] at h1 h2
      by_cases hab : a.toNat < b.toNat
      · simp [hab] at h2; omega
      · by_cases hba : b.toNat < a.toNat
        · simp [hab, hba] at h1
        · rw [if_neg hab, if_neg hba] at h1
          rw [if_neg hba, if_neg hab] at h2
          have hc : a = b := by
            have h3 : a.toNat = b.toNat := by omega
            have h4 := congrArg Char.ofNat h3
            rwa [Char.ofNat_toNat, Char.ofNat_toNat] at h4
          rw [hc, ih bs h1 h2]

theorem pyStrLe_antisymm (a b : String) (h1 : pyStrLe a b = true)
    (h2 : pyStrLe b a = true) : a = b := by
  cases a with
  | mk da =>
    cases b with
    | mk db => exact congrArg String.mk (charsLe_antisymm da db h1 h2)

instance : IsTotal FileEntry nameLe :=
  ⟨fun a b => charsLe_total a.name.data b.name.data⟩

instance : IsTrans FileEntry nameLe :=
  ⟨fun a b c h1 h2 => charsLe_trans a.name.data b.name.data c.name.data h1 h2⟩

theorem sortByName_perm (l : List FileEntry) : (sortByName l).Perm l :=
  List.perm_insertionSort nameLe l

theorem sortByName_sorted (l : List FileEntry) : List.Sorted nameLe (sortByName l) :=
  List.sorted_insertionSort nameLe l

/-!
Structural lemmas on make_assets.
-/

theorem make_assets_aux_length (l : List FileEntry) :
    ∀ i, (make_assets_aux i l).length = l.length := by
  induction l with
  | nil => intro i; rfl
  | cons p rest ih => intro i; simp [make_assets_aux, ih]

theorem make_assets_aux_map_id (l : List FileEntry) :
    ∀ i, (make_assets_aux i l).map PhotoAsset.id = List.range' i l.length := by
  induction l with
  | nil => intro i; rfl
  | cons p rest ih => intro i; simp [make_assets_aux, List.range'_succ, ih]

theorem make_assets_aux_map_role (l : List FileEntry) :
    ∀ i, (make_assets_aux i l).map PhotoAsset.role =
      (List.range' i l.length).map
        (fun k => if k < 6 then "element" else "background") := by
  induction l with
  | nil => intro i; rfl
  | cons p rest ih => intro i; simp [make_assets_aux, List.range'_succ, ih]

theorem make_assets_aux_mem (l : List FileEntry) :
    ∀ i a, a ∈ make_assets_aux i l →
      a.role = (if a.id < 6 then "element" else "background") ∧
      ∃ p ∈ l, a._image = load_rgba_with_exif p ∧ a.path = p.name ∧
        a.width = a._image.width ∧ a.height = a._image.height := by
  induction l with
  | nil => intro i a ha; simp [make_assets_aux] at ha
  | cons p rest ih =>
    intro i a ha
    simp only [make_assets_aux, List.mem_cons] at ha
    rcases ha with rfl | ha
    · exact ⟨rfl, p, by simp⟩
    · obtain ⟨hrole, q, hq, hrest⟩ := ih (i + 1) a ha
      exact ⟨hrole, q, List.mem_cons_of_mem p hq, hrest⟩

theorem range'_take : ∀ (m n s : Nat), m ≤ n →
    (List.range' s n).take m = List.range' s m := by
  intro m
  induction m with
  | zero => intro n s _; rfl
  | succ m ih =>
    intro n s h
    cases n with
    | zero => omega
    | succ n => simp [List.range'_succ, ih n (s + 1) (by omega)]

/-- C1: make_assets assigns roles positionally. For at least six input paths,
ids count 1, 2, 3, ... in input order, every asset with id below 6 has the
element role, and the first six roles read element five times then
background, so ids 1 to 5 are elements and id 6 is the background. -/
theorem make_assets_positional_roles (paths : List FileEntry)
    (h6 : 6 ≤ paths.length) :
    (make_assets paths).map PhotoAsset.id = List.range' 1 paths.length ∧
    ((make_assets paths).map PhotoAsset.role).take 6 =
      ["element", "element", "element", "element", "element", "background"] ∧
    ∀ a ∈ make_assets paths,
      a.role = (if a.id < 6 then "element" else "background") := by
  refine ⟨make_assets_aux_map_id paths 1, ?_, ?_⟩
  · rw [make_assets, make_assets_aux_map_role, ← List.map_take,
      range'_take 6 paths.length 1 h6]
    rfl
  · intro a ha
    exact (make_assets_aux_mem paths 1 a ha).1

/-- Closed instance of make_assets_positional_roles on the six selected
sample entries. -/
theorem make_assets_positional_roles_w :
    (make_assets demoSel).map PhotoAsset.id = List.range' 1 demoSel.length ∧
    ((make_assets demoSel).map PhotoAsset.role).take 6 =
      ["element", "element", "element", "element", "element", "background"] ∧
    ∀ a ∈ make_assets demoSel,
      a.role = (if a.id < 6 then "element" else "background") :=
  make_assets_positional_roles demoSel (by decide)

theorem list_images_eq_ok (d : List FileEntry)
    (h : ¬ (sortByName (d.filter isImageEntry)).length < 6) :
    list_images d = Except.ok ((sortByName (d.filter isImageEntry)).take 6) := by
  simp [list_images, h]

theorem list_images_eq_error (d : List FileEntry)
    (h : (sortByName (d.filter isImageEntry)).length < 6) :
    list_images d = Except.error
      ("Need at least 6 images, found " ++
        toString (sortByName (d.filter isImageEntry)).length ++ ".") := by
  simp [list_images, h]

/-- C2: list_images fails exactly when fewer than six entries carry a known
image extension; on success it returns the first six matches in name-sorted
order, and this minimum-count check is the only way the whole pipeline can
fail. -/
theorem list_images_min_count_spec (d : List FileEntry) :
    ((list_images d).isOk = true ↔ 6 ≤ (d.filter isImageEntry).length) ∧
    (∀ e, list_images d = Except.error e → (d.filter isImageEntry).length < 6) ∧
    (∀ r, list_images d = Except.ok r →
      r = (sortByName (d.filter isImageEntry)).take 6 ∧ r.length = 6 ∧
      List.Sorted nameLe r ∧ ∀ f ∈ r, f ∈ d ∧ isImageEntry f = true) ∧
    (∀ textW, (run_pipeline d textW).isOk = true ↔
      6 ≤ (d.filter isImageEntry).length) := by
  have flen : (sortByName (d.filter isImageEntry)).length =
      (d.filter isImageEntry).length := (sortByName_perm _).length_eq
  by_cases h : (sortByName (d.filter isImageEntry)).length < 6
  · have he := list_images_eq_error d h
    refine ⟨?_, fun e _ => by omega, fun r hr => ?_, fun textW => ?_⟩
    · rw [he]; simp [Except.isOk, Except.toBool]; omega
    · rw [he] at hr; simp at hr
    · rw [run_pipeline, he]; simp [Except.isOk, Except.toBool]; omega
  · have ho := list_images_eq_ok d h
    refine ⟨?_, fun e hee => ?_, fun r hr => ?_, fun textW => ?_⟩
    · rw [ho]; simp [Except.isOk, Except.toBool]; omega
    · rw [ho] at hee; simp at hee
    · rw [ho] at hr
      simp only [Except.ok.injEq] at hr
      subst hr
      refine ⟨rfl, ?_, ?_, fun f hf => ?_⟩
      · simp only [List.length_take]; omega
      · exact List.Pairwise.sublist (List.take_sublist 6 _) (sortByName_sorted _)
      · have hf2 : f ∈ sortByName (d.filter isImageEntry) :=
          (List.take_sublist 6 _).subset hf
        have hf3 : f ∈ d.filter isImageEntry := (sortByName_perm _).mem_iff.mp hf2
        exact List.mem_filter.mp hf3
    · rw [run_pipeline, ho]; simp [Except.isOk, Except.toBool]; omega

/-- Closed instance of list_images_min_count_spec: the six selected entries
of the sample directory, with their order, length, sortedness and
membership facts. -/
theorem list_images_min_count_spec_w :
    demoSel = (sortByName (demoDir.filter isImageEntry)).take 6 ∧
    demoSel.length = 6 ∧ List.Sorted nameLe demoSel ∧
    ∀ f ∈ demoSel, f ∈ demoDir ∧ isImageEntry f = true :=
  (list_images_min_count_spec demoDir).2.2.1 demoSel (by rfl)

/-- C8: the extension filter lower-cases the suffix before comparing it with
the six known image extensions, so matching is case-insensitive; upper and
mixed case variants of known extensions are accepted and unknown extensions
are rejected. -/
theorem image_filter_case_insensitive :
    (∀ (d : List FileEntry) (f : FileEntry),
      f ∈ d.filter isImageEntry ↔
        f ∈ d ∧ imageExts.contains (strLower (pathSuffix f.name)) = true) ∧
    isImageEntry (demoFile ("x.JPG")) = true ∧
    isImageEntry (demoFile ("y.Png")) = true ∧
    isImageEntry (demoFile ("z.jpg")) = true ∧
    isImageEntry (demoFile ("w.gif")) = false :=
  ⟨fun _ _ => List.mem_filter, by decide, by decide, by decide, by decide⟩

/-- Closed instance of image_filter_case_insensitive on a sample entry with
an upper-case extension inside the sample directory. -/
theorem image_filter_case_insensitive_w :
    demoFile ("b.PNG") ∈ demoDir.filter isImageEntry ↔
      demoFile ("b.PNG") ∈ demoDir ∧
        imageExts.contains (strLower (pathSuffix (demoFile ("b.PNG")).name)) = true :=
  image_filter_case_insensitive.1 demoDir (demoFile ("b.PNG"))

/-!
Geometry of the PIL thumbnail model.
-/

theorem roundAspect_pos (key : Nat → ℚ) (q : ℚ) : 1 ≤ roundAspect key q := by
  unfold roundAspect pyMin2
  split_ifs <;> omega

theorem roundAspect_le (key : Nat → ℚ) (q : ℚ) (t : Nat) (hq : q ≤ (t : ℚ))
    (ht : 1 ≤ t) : roundAspect key q ≤ t := by
  have hfl : Int.toNat ⌊q⌋ ≤ t := by
    have h1 : ⌊q⌋ ≤ (t : ℤ) := by
      have h2 := Int.floor_le_floor hq
      rwa [Int.floor_natCast] at h2
    omega
  have hce : Int.toNat ⌈q⌉ ≤ t := by
    have h1 : ⌈q⌉ ≤ (t : ℤ) := Int.ceil_le.mpr hq
    omega
  unfold roundAspect pyMin2
  split_ifs <;> omega

theorem roundAspect_near (key : Nat → ℚ) (q : ℚ) (hq : 0 < q) :
    |((roundAspect key q : Nat) : ℚ) - q| ≤ 1 := by
  have hfl0 : (0 : ℤ) ≤ ⌊q⌋ := Int.floor_nonneg.mpr hq.le
  have hce0 : (0 : ℤ) < ⌈q⌉ := Int.ceil_pos.mpr hq
  have hflc : ((Int.toNat ⌊q⌋ : Nat) : ℚ) = ((⌊q⌋ : ℤ) : ℚ) := by
    exact_mod_cast congrArg (fun z => ((z : ℤ) : ℚ)) (Int.toNat_of_nonneg hfl0)
  have hcec : ((Int.toNat ⌈q⌉ : Nat) : ℚ) = ((⌈q⌉ : ℤ) : ℚ) := by
    exact_mod_cast congrArg (fun z => ((z : ℤ) : ℚ)) (Int.toNat_of_nonneg hce0.le)
  have hflq : ((Int.toNat ⌊q⌋ : Nat) : ℚ) ≤ q := by rw [hflc]; exact Int.floor_le q
  have hflq2 : q < ((Int.toNat ⌊q⌋ : Nat) : ℚ) + 1 := by
    rw [hflc]; exact Int.lt_floor_add_one q
  have hceq : q ≤ ((Int.toNat ⌈q⌉ : Nat) : ℚ) := by rw [hcec]; exact Int.le_ceil q
  have hceq2 : ((Int.toNat ⌈q⌉ : Nat) : ℚ) < q + 1 := by
    rw [hcec]; exact Int.ceil_lt_add_one q
  have hce1 : 1 ≤ Int.toNat ⌈q⌉ := by omega
  unfold roundAspect pyMin2
  split_ifs with hkey
  · rw [Nat.max_eq_left hce1, abs_sub_le_iff]
    constructor <;> linarith
  · by_cases hfl1 : 1 ≤ Int.toNat ⌊q⌋
    · rw [Nat.max_eq_left hfl1, abs_sub_le_iff]
      constructor <;> linarith
    · have hz : Int.toNat ⌊q⌋ = 0 := by omega
      rw [hz] at hflq2 ⊢
      have hm : max 0 1 = 1 := rfl
      rw [hm, abs_sub_le_iff]
      push_cast at hflq2 ⊢
      constructor <;> linarith

theorem thumbnailDims_le (w h tx ty : Nat) (hw : 1 ≤ w) (hh : 1 ≤ h)
    (htx : 1 ≤ tx) (hty : 1 ≤ ty) :
    (thumbnailDims w h tx ty).1 ≤ tx ∧ (thumbnailDims w h tx ty).2 ≤ ty := by
  have hh0 : (0 : ℚ) < h := by exact_mod_cast hh
  have hw0 : (0 : ℚ) < w := by exact_mod_cast hw
  have hty0 : (0 : ℚ) < ty := by exact_mod_cast hty
  unfold thumbnailDims
  dsimp only
  split_ifs with hfit hbr
  · exact ⟨hfit.1, hfit.2⟩
  · refine ⟨?_, le_refl ty⟩
    apply roundAspect_le
    · have key : (w : ℚ) * ty ≤ tx * h := (div_le_div_iff hh0 hty0).mp hbr
      rw [mul_div_assoc', div_le_iff hh0]
      nlinarith
    · exact htx
  · refine ⟨le_refl tx, ?_⟩
    apply roundAspect_le
    · push_neg at hbr
      have key : (tx : ℚ) * h ≤ w * ty := by
        have h2 := (div_lt_div_iff hty0 hh0).mp hbr
        nlinarith
      rw [div_div_eq_mul_div, div_le_iff hw0]
      nlinarith
    · exact hty

theorem thumbnailDims_shrink (w h tx ty : Nat) (hw : 1 ≤ w) (hh : 1 ≤ h)
    (htx : 1 ≤ tx) (hty : 1 ≤ ty) :
    (thumbnailDims w h tx ty).1 ≤ w ∧ (thumbnailDims w h tx ty).2 ≤ h := by
  have hh0 : (0 : ℚ) < h := by exact_mod_cast hh
  have hw0 : (0 : ℚ) < w := by exact_mod_cast hw
  have htx0 : (0 : ℚ) < tx := by exact_mod_cast htx
  have hty0 : (0 : ℚ) < ty := by exact_mod_cast hty
  unfold thumbnailDims
  dsimp only
  split_ifs with hfit hbr
  · exact ⟨le_refl w, le_refl h⟩
  · -- wide target branch: the height becomes ty, which cannot exceed h here
    have hknat : ¬ (w ≤ tx ∧ h ≤ ty) := hfit
    have hyh : ty ≤ h := by
      by_contra hcon
      push_neg at hcon
      have hwx : ¬ w ≤ tx := fun hle => hknat ⟨hle, by omega⟩
      push_neg at hwx
      have c1 : (tx : ℚ) < w := by exact_mod_cast hwx
      have c2 : (h : ℚ) < ty := by exact_mod_cast hcon
      have hbig : (tx : ℚ) / ty < w / h := by
        rw [div_lt_div_iff hty0 hh0]
        nlinarith
      exact absurd hbr (not_le.mpr hbig)
    refine ⟨?_, hyh⟩
    apply roundAspect_le
    · have hq : (ty : ℚ) * ((w : ℚ) / h) ≤ w := by
        rw [mul_div_assoc', div_le_iff hh0]
        have : (ty : ℚ) ≤ h := by exact_mod_cast hyh
        nlinarith
      exact hq
    · exact hw
  · push_neg at hbr
    have hknat : ¬ (w ≤ tx ∧ h ≤ ty) := hfit
    have hxw : tx ≤ w := by
      by_contra hcon
      push_neg at hcon
      have hhy : ¬ h ≤ ty := fun hle => hknat ⟨by omega, hle⟩
      push_neg at hhy
      have c1 : (w : ℚ) < tx := by exact_mod_cast hcon
      have c2 : (ty : ℚ) < h := by exact_mod_cast hhy
      have hsmall : (w : ℚ) / h < tx / ty := by
        rw [div_lt_div_iff hh0 hty0]
        nlinarith
      exact absurd hbr (not_lt.mpr hsmall.le)
    refine ⟨hxw, ?_⟩
    apply roundAspect_le
    · rw [div_div_eq_mul_div, div_le_iff hw0]
      have : (tx : ℚ) ≤ w := by exact_mod_cast hxw
      nlinarith
    · exact hh

theorem thumbnailDims_aspect (w h t : Nat) (hw : 1 ≤ w) (hh : 1 ≤ h)
    (ht : 1 ≤ t) :
    |((thumbnailDims w h t t).1 : ℚ) * h - (w : ℚ) * (thumbnailDims w h t t).2| ≤
      (max w h : ℚ) := by
  have hh0 : (0 : ℚ) < h := by exact_mod_cast hh
  have hw0 : (0 : ℚ) < w := by exact_mod_cast hw
  have ht0 : (0 : ℚ) < t := by exact_mod_cast ht
  have hmaxw : (w : ℚ) ≤ (max w h : ℚ) := by exact_mod_cast Nat.le_max_left w h
  have hmaxh : (h : ℚ) ≤ (max w h : ℚ) := by exact_mod_cast Nat.le_max_right w h
  unfold thumbnailDims
  dsimp only
  split_ifs with hfit hbr
  · simp [abs_nonneg, mul_comm]
  · set r := roundAspect (fun n => |(w : ℚ) / h - (n : ℚ) / (t : ℚ)|) ((t : ℚ) * ((w : ℚ) / h)) with hr
    have hq0 : (0 : ℚ) < (t : ℚ) * ((w : ℚ) / h) := by positivity
    have hnear := roundAspect_near (fun n => |(w : ℚ) / h - (n : ℚ) / (t : ℚ)|)
      ((t : ℚ) * ((w : ℚ) / h)) hq0
    rw [← hr] at hnear
    have hqh : ((t : ℚ) * ((w : ℚ) / h)) * h = (t : ℚ) * w := by field_simp
    have key : |(r : ℚ) * h - (w : ℚ) * t| = |(r : ℚ) - (t : ℚ) * ((w : ℚ) / h)| * h := by
      have e : (r : ℚ) * h - (w : ℚ) * t = ((r : ℚ) - (t : ℚ) * ((w : ℚ) / h)) * h := by
        rw [sub_mul, hqh]; ring
      rw [e, abs_mul, abs_of_pos hh0]
    calc |(r : ℚ) * h - (w : ℚ) * t| = |(r : ℚ) - (t : ℚ) * ((w : ℚ) / h)| * h := key
      _ ≤ 1 * h := by
          apply mul_le_mul_of_nonneg_right hnear hh0.le
      _ = h := one_mul _
      _ ≤ (max w h : ℚ) := hmaxh
  · set r := roundAspect (fun n => if n = 0 then 0 else |(w : ℚ) / h - (t : ℚ) / (n : ℚ)|)
      ((t : ℚ) / ((w : ℚ) / h)) with hr
    have hq0 : (0 : ℚ) < (t : ℚ) / ((w : ℚ) / h) := by positivity
    have hnear := roundAspect_near
      (fun n => if n = 0 then 0 else |(w : ℚ) / h - (t : ℚ) / (n : ℚ)|)
      ((t : ℚ) / ((w : ℚ) / h)) hq0
    rw [← hr] at hnear
    have hqw : ((t : ℚ) / ((w : ℚ) / h)) * w = (t : ℚ) * h := by field_simp
    have key : |(t : ℚ) * h - (w : ℚ) * r| = |((t : ℚ) / ((w : ℚ) / h)) - (r : ℚ)| * w := by
      have e : (t : ℚ) * h - (w : ℚ) * r = (((t : ℚ) / ((w : ℚ) / h)) - (r : ℚ)) * w := by
        rw [sub_mul, hqw]; ring
      rw [e, abs_mul, abs_of_pos hw0]
    calc |(t : ℚ) * h - (w : ℚ) * r| = |((t : ℚ) / ((w : ℚ) / h)) - (r : ℚ)| * w := key
      _ ≤ 1 * w := by
          apply mul_le_mul_of_nonneg_right _ hw0.le
          rw [abs_sub_comm]
          exact hnear
      _ = w := one_mul _
      _ ≤ (max w h : ℚ) := hmaxw

/-- C3: each normalized copy keeps its larger side within the threshold of
its role (1600 for element, 2400 for background), is altered only when the
decoded image exceeds that threshold, never grows, and keeps the aspect ratio
up to the integer rounding of one side. -/
theorem save_normalized_images_bounds (a : PhotoAsset)
    (hw : 1 ≤ a._image.width) (hh : 1 ≤ a._image.height) :
    max (normalizedDims 1600 2400 a).1 (normalizedDims 1600 2400 a).2 ≤
      (if a.role == "background" then 2400 else 1600) ∧
    (max a._image.width a._image.height ≤
        (if a.role == "background" then 2400 else 1600) →
      normalizedDims 1600 2400 a = (a._image.width, a._image.height)) ∧
    (normalizedDims 1600 2400 a).1 ≤ a._image.width ∧
    (normalizedDims 1600 2400 a).2 ≤ a._image.height ∧
    |((normalizedDims 1600 2400 a).1 : ℚ) * a._image.height -
        (a._image.width : ℚ) * (normalizedDims 1600 2400 a).2| ≤
      (max a._image.width a._image.height : ℚ) := by
  unfold normalizedDims
  dsimp only
  set t : Nat := (if a.role == "background" then 2400 else 1600) with hT
  have htarget : 1 ≤ t := by rw [hT]; split_ifs <;> omega
  split_ifs with hbig
  · have hle := thumbnailDims_le a._image.width a._image.height t t hw hh htarget htarget
    have hsh := thumbnailDims_shrink a._image.width a._image.height t t hw hh htarget htarget
    have hasp := thumbnailDims_aspect a._image.width a._image.height t hw hh htarget
    exact ⟨by omega, fun hcon => absurd hcon (by omega), hsh.1, hsh.2, hasp⟩
  · refine ⟨by dsimp only; omega, fun _ => rfl, le_refl _, le_refl _, ?_⟩
    simp

/-- Closed instance of save_normalized_images_bounds on the oversized sample
element asset of 3200 by 1600 pixels. -/
theorem save_normalized_images_bounds_w :
    max (normalizedDims 1600 2400 bigAsset).1 (normalizedDims 1600 2400 bigAsset).2 ≤
      (if bigAsset.role == "background" then 2400 else 1600) :=
  (save_normalized_images_bounds bigAsset (by decide) (by decide)).1

theorem fdiv2_center (d : Int) (hd : 0 ≤ d) :
    Int.fdiv d 2 + (d - Int.fdiv d 2) = d ∧
    0 ≤ Int.fdiv d 2 ∧
    |(d - Int.fdiv d 2) - Int.fdiv d 2| ≤ 1 := by
  rw [Int.fdiv_eq_ediv _ (by omega : (0 : Int) ≤ 2)]
  refine ⟨by ring, by omega, ?_⟩
  rw [abs_le]
  constructor <;> omega

theorem render_tiles_aux_length (tileW tileH cols : Nat) (textW : String → ℚ) :
    ∀ (l : List PhotoAsset) (i : Nat),
      (render_tiles_aux tileW tileH cols textW i l).length = l.length := by
  intro l
  induction l with
  | nil => intro i; rfl
  | cons a rest ih => intro i; simp [render_tiles_aux, ih]

theorem render_tiles_aux_get? (tileW tileH cols : Nat) (textW : String → ℚ) :
    ∀ (l : List PhotoAsset) (i k : Nat),
      (render_tiles_aux tileW tileH cols textW i l).get? k =
        (l.get? k).map (render_tile tileW tileH cols textW (i + k)) := by
  intro l
  induction l with
  | nil => intro i k; simp [render_tiles_aux]
  | cons a rest ih =>
    intro i k
    cases k with
    | zero => simp [render_tiles_aux]
    | succ k =>
      simp only [render_tiles_aux, List.get?_cons_succ]
      rw [ih (i + 1) k, (by omega : i + 1 + k = i + (k + 1))]

/-- C5: with six assets the contact sheet is a 3 by 2 grid of 480 by 320
tiles; the thumbnail of the asset at index k sits at
x equal to k mod 3 times 480 plus half the horizontal slack, rounded down,
and y equal to k div 3 times 320 plus half the vertical slack, so each
thumbnail is centered in its tile to within one pixel, and the label box of
every tile starts exactly at the thumbnail position with the
semi-transparent fill of alpha 120. -/
theorem save_contact_sheet_grid (assets : List PhotoAsset) (textW : String → ℚ)
    (h6 : assets.length = 6)
    (hdims : ∀ a ∈ assets, 1 ≤ a._image.width ∧ 1 ≤ a._image.height) :
    (save_contact_sheet assets 480 320 3 textW).sheetW = 3 * 480 ∧
    (save_contact_sheet assets 480 320 3 textW).sheetH = 2 * 320 ∧
    (save_contact_sheet assets 480 320 3 textW).tiles.length = 6 ∧
    ∀ k a tile, assets.get? k = some a →
      (save_contact_sheet assets 480 320 3 textW).tiles.get? k = some tile →
      (tile.thumbW = (thumbnailDims a._image.width a._image.height 480 320).1 ∧
        tile.thumbH = (thumbnailDims a._image.width a._image.height 480 320).2 ∧
        tile.thumbW ≤ 480 ∧ tile.thumbH ≤ 320) ∧
      (tile.posX = ((k % 3 : Nat) : Int) * 480 +
          Int.fdiv ((480 : Int) - (tile.thumbW : Int)) 2 ∧
        tile.posY = ((k / 3 : Nat) : Int) * 320 +
          Int.fdiv ((320 : Int) - (tile.thumbH : Int)) 2) ∧
      ((tile.posX - ((k % 3 : Nat) : Int) * 480) +
          ((((k % 3 : Nat) : Int) * 480 + 480) - (tile.posX + tile.thumbW)) =
            (480 : Int) - tile.thumbW ∧
        |((((k % 3 : Nat) : Int) * 480 + 480) - (tile.posX + tile.thumbW)) -
            (tile.posX - ((k % 3 : Nat) : Int) * 480)| ≤ 1 ∧
        (tile.posY - ((k / 3 : Nat) : Int) * 320) +
          ((((k / 3 : Nat) : Int) * 320 + 320) - (tile.posY + tile.thumbH)) =
            (320 : Int) - tile.thumbH ∧
        |((((k / 3 : Nat) : Int) * 320 + 320) - (tile.posY + tile.thumbH)) -
            (tile.posY - ((k / 3 : Nat) : Int) * 320)| ≤ 1) ∧
      (tile.boxX0 = tile.posX ∧ tile.boxY0 = tile.posY ∧
        tile.labelText = toString a.id ++ ": " ++ a.role ∧
        tile.boxFill = (0, 0, 0, 120)) := by
  refine ⟨by simp [save_contact_sheet], by simp [save_contact_sheet, h6],
    by simp [save_contact_sheet, render_tiles_aux_length, h6], ?_⟩
  intro k a tile hka htile
  have hmem : a ∈ assets := List.get?_mem hka
  obtain ⟨hw, hh⟩ := hdims a hmem
  have htile2 : tile = render_tile 480 320 3 textW k a := by
    rw [save_contact_sheet] at htile
    dsimp only at htile
    rw [render_tiles_aux_get? 480 320 3 textW assets 0 k] at htile
    rw [hka] at htile
    simp only [Option.map_some', Option.some.injEq, Nat.zero_add] at htile
    exact htile.symm
  subst htile2
  have hle := thumbnailDims_le a._image.width a._image.height 480 320 hw hh
    (by omega) (by omega)
  have hthw : (render_tile 480 320 3 textW k a).thumbW =
      (thumbnailDims a._image.width a._image.height 480 320).1 := rfl
  have hthh : (render_tile 480 320 3 textW k a).thumbH =
      (thumbnailDims a._image.width a._image.height 480 320).2 := rfl
  have hposx : (render_tile 480 320 3 textW k a).posX =
      ((k % 3 : Nat) : Int) * 480 +
        Int.fdiv ((480 : Int) - ((render_tile 480 320 3 textW k a).thumbW : Int)) 2 := by
    dsimp [render_tile]
  have hposy : (render_tile 480 320 3 textW k a).posY =
      ((k / 3 : Nat) : Int) * 320 +
        Int.fdiv ((320 : Int) - ((render_tile 480 320 3 textW k a).thumbH : Int)) 2 := by
    dsimp [render_tile]
  have hdx : (0 : Int) ≤ 480 - ((render_tile 480 320 3 textW k a).thumbW : Int) := by
    have := hle.1
    rw [hthw]
    omega
  have hdy : (0 : Int) ≤ 320 - ((render_tile 480 320 3 textW k a).thumbH : Int) := by
    have := hle.2
    rw [hthh]
    omega
  obtain ⟨hcx1, hcx2, hcx3⟩ := fdiv2_center _ hdx
  obtain ⟨hcy1, hcy2, hcy3⟩ := fdiv2_center _ hdy
  refine ⟨⟨hthw, hthh, by rw [hthw]; exact hle.1, by rw [hthh]; exact hle.2⟩,
    ⟨hposx, hposy⟩, ⟨?_, ?_, ?_, ?_⟩, rfl, rfl, rfl, rfl⟩
  · rw [hposx]; ring
  · have heq : ((((k % 3 : Nat) : Int) * 480 + 480) -
        ((render_tile 480 320 3 textW k a).posX +
          (render_tile 480 320 3 textW k a).thumbW)) -
        ((render_tile 480 320 3 textW k a).posX - ((k % 3 : Nat) : Int) * 480) =
        ((480 - ((render_tile 480 320 3 textW k a).thumbW : Int)) -
          Int.fdiv ((480 : Int) - ((render_tile 480 320 3 textW k a).thumbW : Int)) 2) -
          Int.fdiv ((480 : Int) - ((render_tile 480 320 3 textW k a).thumbW : Int)) 2 := by
      rw [hposx]; ring
    rw [heq]
    exact hcx3
  · rw [hposy]; ring
  · have heq : ((((k / 3 : Nat) : Int) * 320 + 320) -
        ((render_tile 480 320 3 textW k a).posY +
          (render_tile 480 320 3 textW k a).thumbH)) -
        ((render_tile 480 320 3 textW k a).posY - ((k / 3 : Nat) : Int) * 320) =
        ((320 - ((render_tile 480 320 3 textW k a).thumbH : Int)) -
          Int.fdiv ((320 : Int) - ((render_tile 480 320 3 textW k a).thumbH : Int)) 2) -
          Int.fdiv ((320 : Int) - ((render_tile 480 320 3 textW k a).thumbH : Int)) 2 := by
      rw [hposy]; ring
    rw [heq]
    exact hcy3

/-- Closed instance of save_contact_sheet_grid on the six selected sample
entries: the canvas of the rendered sheet is 1440 by 640. -/
theorem save_contact_sheet_grid_w :
    (save_contact_sheet (make_assets demoSel) 480 320 3 (fun _ => 0)).sheetW = 3 * 480 ∧
    (save_contact_sheet (make_assets demoSel) 480 320 3 (fun _ => 0)).sheetH = 2 * 320 :=
  ⟨(save_contact_sheet_grid (make_assets demoSel) (fun _ => 0) (by decide)
      (by decide)).1,
    (save_contact_sheet_grid (make_assets demoSel) (fun _ => 0) (by decide)
      (by decide)).2.1⟩

/-- C4: write_summary renders the assets in list order, which for pipeline
assets is id order 1, 2, 3, ...; each record consists of exactly the keys id,
role, path, width and height, in that order, with the values of the
corresponding PhotoAsset fields and nothing else (in particular no image);
the rendering is the JSON list serialization with 2-space indentation, shown
byte for byte on a sample asset. -/
theorem write_summary_layout (paths : List FileEntry) :
    write_summary (make_assets paths) =
      dumpRecordList ((make_assets paths).map summary_record) ∧
    (∀ a : PhotoAsset, (summary_record a).map Prod.fst =
      ["id", "role", "path", "width", "height"]) ∧
    (∀ a : PhotoAsset, (summary_record a).map Prod.snd =
      [JScalar.jint a.id, JScalar.jstr a.role, JScalar.jstr a.path,
        JScalar.jint a.width, JScalar.jint a.height]) ∧
    (make_assets paths).map PhotoAsset.id = List.range' 1 paths.length ∧
    write_summary (make_assets [demoFile ("a.png")]) =
      "[\n  \x7b\n    \"id\": 1,\n    \"role\": \"element\",\n    \"path\": \"a.png\",\n    \"width\": 4,\n    \"height\": 3\n  \x7d\n]" :=
  ⟨rfl, fun _ => rfl, fun _ => rfl, make_assets_aux_map_id paths 1, by decide⟩

/-- Closed instance of write_summary_layout: the ids of the six sample
assets are 1 to 6 in order. -/
theorem write_summary_layout_w :
    (make_assets demoSel).map PhotoAsset.id = List.range' 1 demoSel.length :=
  (write_summary_layout demoSel).2.2.2.1

theorem make_assets_aux_map_image (l : List FileEntry) :
    ∀ i, (make_assets_aux i l).map PhotoAsset._image = l.map load_rgba_with_exif := by
  induction l with
  | nil => intro i; rfl
  | cons p rest ih => intro i; simp [make_assets_aux, ih]

/-- C6: every decoded image goes through the EXIF transposition first and the
RGBA conversion second; a tag between 2 and 8 is consumed, tags 5 to 8 swap
the axes, and every asset records exactly the resulting image, mode RGBA,
with its post-rotation width and height, before any downstream step sees
it. -/
theorem load_normalizes_before_use (paths : List FileEntry) :
    (∀ f : FileEntry,
      load_rgba_with_exif f = convert (exif_transpose f.image) ("RGBA")) ∧
    (∀ f : FileEntry, (load_rgba_with_exif f).mode = "RGBA") ∧
    (∀ f : FileEntry, 2 ≤ f.image.orientation → f.image.orientation ≤ 8 →
      (load_rgba_with_exif f).orientation = 0) ∧
    (∀ f : FileEntry, 5 ≤ f.image.orientation → f.image.orientation ≤ 8 →
      (load_rgba_with_exif f).width = f.image.height ∧
      (load_rgba_with_exif f).height = f.image.width) ∧
    (make_assets paths).map PhotoAsset._image = paths.map load_rgba_with_exif ∧
    (∀ a ∈ make_assets paths, a._image.mode = "RGBA" ∧
      a.width = a._image.width ∧ a.height = a._image.height) := by
  refine ⟨fun f => rfl, fun f => rfl, ?_, ?_, make_assets_aux_map_image paths 1, ?_⟩
  · intro f h2 h8
    unfold load_rgba_with_exif convert exif_transpose
    dsimp only
    split_ifs with h5 h24
    · rfl
    · rfl
    · omega
  · intro f h5 h8
    unfold load_rgba_with_exif convert exif_transpose
    dsimp only
    split_ifs with hc h24
    · exact ⟨rfl, rfl⟩
    · omega
    · omega
  · intro a ha
    obtain ⟨_, p, _, himg, _, hw, hh⟩ := make_assets_aux_mem paths 1 a ha
    refine ⟨?_, hw, hh⟩
    rw [himg]
    rfl

/-- Closed instance of load_normalizes_before_use on the sample entry with
EXIF orientation 6: the decoded asset image swaps the axes. -/
theorem load_normalizes_before_use_w :
    (load_rgba_with_exif rotFile).width = rotFile.image.height ∧
    (load_rgba_with_exif rotFile).height = rotFile.image.width :=
  (load_normalizes_before_use []).2.2.2.1 rotFile (by decide) (by decide)

/-- C7: the pipeline is deterministic in the directory content: two
directory listings with the same entries, in any enumeration order, give the
same selected six paths and hence the same assets, roles and byte-identical
manifest text. Directory entries have pairwise distinct names. -/
theorem pipeline_deterministic (d1 d2 : List FileEntry) (hperm : d1.Perm d2)
    (hnames : (d1.map FileEntry.name).Nodup) :
    list_images d1 = list_images d2 ∧
    Except.map make_assets (list_images d1) =
      Except.map make_assets (list_images d2) ∧
    Except.map (fun ps => write_summary (make_assets ps)) (list_images d1) =
      Except.map (fun ps => write_summary (make_assets ps)) (list_images d2) := by
  have hfp : (d1.filter isImageEntry).Perm (d2.filter isImageEntry) :=
    hperm.filter isImageEntry
  have hsperm : (sortByName (d1.filter isImageEntry)).Perm
      (sortByName (d2.filter isImageEntry)) :=
    (sortByName_perm _).trans (hfp.trans (sortByName_perm _).symm)
  have hnd1 : ((sortByName (d1.filter isImageEntry)).map FileEntry.name).Nodup := by
    have h1 : ((d1.filter isImageEntry).map FileEntry.name).Nodup :=
      List.Nodup.sublist ((List.filter_sublist d1).map FileEntry.name) hnames
    exact ((sortByName_perm (d1.filter isImageEntry)).map FileEntry.name).nodup_iff.mpr h1
  have hnd2 : ((sortByName (d2.filter isImageEntry)).map FileEntry.name).Nodup :=
    (hsperm.map FileEntry.name).nodup_iff.mp hnd1
  haveI : IsAntisymm FileEntry (fun a b => nameLe a b ∧ a.name ≠ b.name) :=
    ⟨fun a b h1 h2 => absurd (pyStrLe_antisymm a.name b.name h1.1 h2.1) h1.2⟩
  have hp1 : List.Pairwise (fun a b => nameLe a b ∧ a.name ≠ b.name)
      (sortByName (d1.filter isImageEntry)) :=
    List.Pairwise.and (sortByName_sorted _) (List.pairwise_map.mp hnd1)
  have hp2 : List.Pairwise (fun a b => nameLe a b ∧ a.name ≠ b.name)
      (sortByName (d2.filter isImageEntry)) :=
    List.Pairwise.and (sortByName_sorted _) (List.pairwise_map.mp hnd2)
  have heqs : sortByName (d1.filter isImageEntry) =
      sortByName (d2.filter isImageEntry) :=
    List.eq_of_perm_of_sorted hsperm hp1 hp2
  have heq : list_images d1 = list_images d2 := by
    rw [list_images, list_images, heqs]
  exact ⟨heq, by rw [heq], by rw [heq]⟩

/-- Closed instance of pipeline_deterministic: the sample directory and its
reversal select the same images. -/
theorem pipeline_deterministic_w :
    list_images demoDir = list_images demoDir.reverse :=
  (pipeline_deterministic demoDir demoDir.reverse (by decide) (by decide)).1

/-- C9: the contact sheet and normalization steps read the assets without
changing any field, so the summary the pipeline writes afterwards is that of
the freshly decoded assets and reports their post-rotation decode
dimensions, while the copies on disk may be smaller: on the 3200 by 1600
sample element the written copy is strictly narrower than the manifest
width. -/
theorem manifest_reports_decoded_dims (d : List FileEntry) (ps : List FileEntry)
    (textW : String → ℚ) (hli : list_images d = Except.ok ps) :
    run_pipeline d textW = Except.ok
      (save_contact_sheet (make_assets ps) 480 320 3 textW,
        save_normalized_images (make_assets ps) 1600 2400,
        write_summary (make_assets ps)) ∧
    (∀ a ∈ make_assets ps,
      a.width = a._image.width ∧ a.height = a._image.height ∧
      (summary_record a).map Prod.snd =
        [JScalar.jint a.id, JScalar.jstr a.role, JScalar.jstr a.path,
          JScalar.jint a._image.width, JScalar.jint a._image.height]) ∧
    save_normalized_images (make_assets ps) 1600 2400 =
      (make_assets ps).map (fun a => (normName a, normalizedDims 1600 2400 a)) ∧
    make_assets [bigFile] = [bigAsset] ∧
    (normalizedDims 1600 2400 bigAsset).1 < bigAsset.width := by
  refine ⟨?_, ?_, rfl, by decide, ?_⟩
  · rw [run_pipeline, hli]
  · intro a ha
    obtain ⟨_, p, _, _, _, hw, hh⟩ := make_assets_aux_mem ps 1 a ha
    refine ⟨hw, hh, ?_⟩
    rw [summary_record]
    dsimp only [List.map]
    rw [hw, hh]
  · have hnd : normalizedDims 1600 2400 bigAsset =
        thumbnailDims 3200 1600 1600 1600 := rfl
    have hle := thumbnailDims_le 3200 1600 1600 1600 (by omega) (by omega)
      (by omega) (by omega)
    rw [hnd]
    have hb : bigAsset.width = 3200 := rfl
    omega

/-- Closed instance of manifest_reports_decoded_dims on the sample
directory: the pipeline output carries exactly the summary of the decoded
assets. -/
theorem manifest_reports_decoded_dims_w :
    run_pipeline demoDir (fun _ => 0) = Except.ok
      (save_contact_sheet (make_assets demoSel) 480 320 3 (fun _ => 0),
        save_normalized_images (make_assets demoSel) 1600 2400,
        write_summary (make_assets demoSel)) :=
  (manifest_reports_decoded_dims demoDir demoSel (fun _ => 0) (by rfl)).1

theorem save_norm_names (l : List FileEntry) : ∀ i mse msb,
    (save_normalized_images (make_assets_aux i l) mse msb).map Prod.fst =
      (List.range' i l.length).map
        (fun k => pad2 k ++ "_" ++ (if k < 6 then "element" else "background") ++ ".png") := by
  induction l with
  | nil => intro i mse msb; rfl
  | cons p rest ih =>
    intro i mse msb
    simp only [save_normalized_images, make_assets_aux, List.map_cons,
      List.length_cons, List.range'_succ]
    refine congrArg₂ List.cons rfl ?_
    exact ih (i + 1) mse msb

/-- C10: on six input paths the normalized copies are written as
01_element.png through 05_element.png and 06_background.png, six pairwise
distinct names, so no output overwrites another. -/
theorem normalized_names_distinct (paths : List FileEntry)
    (h : paths.length = 6) :
    (save_normalized_images (make_assets paths) 1600 2400).map Prod.fst =
      ["01_element.png", "02_element.png", "03_element.png",
        "04_element.png", "05_element.png", "06_background.png"] ∧
    (["01_element.png", "02_element.png", "03_element.png",
      "04_element.png", "05_element.png", "06_background.png"] : List String).Nodup := by
  refine ⟨?_, by decide⟩
  rw [make_assets, save_norm_names paths 1 1600 2400, h]
  decide

/-- Closed instance of normalized_names_distinct on the six selected sample
entries. -/
theorem normalized_names_distinct_w :
    (save_normalized_images (make_assets demoSel) 1600 2400).map Prod.fst =
      ["01_element.png", "02_element.png", "03_element.png",
        "04_element.png", "05_element.png", "06_background.png"] :=
  (normalized_names_distinct demoSel (by decide)).1

end Collage
